import Mathlib

/-!
Verification of the gobetter code generator against its specification.

The Go sources are embedded shallowly: `go/ast` type expressions become the
inductive `Expr`/`Field`/`FieldList` below, and the pure functions of
`typefmt.go` and `main.go` become Lean functions over them.  Parts of the
repository that exist only through their constants, callers and tests
(the regex flag extraction, `exportName`, the builder-identifier assembly,
the alias uniquifier and the signature cache) are modelled where needed;
each such definition says so in its doc comment.
-/

namespace Gobetter

/-- Source position (line, column) as provided by `go/token.FileSet`. -/
structure SrcPos where
  line : Nat
  col : Nat
deriving DecidableEq, Repr

/-- Channel direction of `ast.ChanType.Dir`: `ast.SEND`, `ast.RECV`, or both bits set. -/
inductive ChanDir where
  | send
  | recv
  | both
deriving DecidableEq, Repr

mutual
/-- Shallow embedding of the `ast.Expr` productions handled by
`TypeFormatter.Format` in `typefmt.go`.  The constructor `other` stands for
every remaining `ast.Expr` kind (`ast.BasicLit`, `ast.BinaryExpr`, ...) that
falls into the `default` branch of the `switch`. -/
inductive Expr where
  | ident (name : String)
  | star (x : Expr)
  | array (elt : Expr)
  | mapT (key value : Expr)
  | selector (x : Expr) (sel : String)
  | indexE (x index : Expr)
  | indexList (x : Expr) (indices : ExprList)
  | chanT (dir : ChanDir) (value : Expr)
  | funcT (params : FieldList) (results : FieldList)
  | ellipsis (elt : Expr)
  | paren (x : Expr)
  | interfaceT (methods : FieldList)
  | structT (fields : FieldList)
  | other (kind : String)

/-- List of expressions (`[]ast.Expr`), kept as its own inductive so that the
mutual recursion below stays structural. -/
inductive ExprList where
  | nil
  | cons (head : Expr) (tail : ExprList)

/-- Shallow embedding of `ast.Field`: declared names (empty for an embedded
field), the type expression, the optional struct tag, the attached line
comment text (as returned by `field.Comment.Text()`), and the source
position of the field. -/
inductive Field where
  | mk (names : List String) (type : Expr) (tag : Option String)
       (comment : String) (pos : SrcPos)

/-- Shallow embedding of `ast.FieldList`.  `typefmt.go` treats a `nil` field
list and an empty one identically everywhere, so both map to `fnil`. -/
inductive FieldList where
  | fnil
  | fcons (head : Field) (tail : FieldList)
end

/-- Names of a field. -/
def Field.names : Field → List String
  | .mk ns _ _ _ _ => ns

/-- Type expression of a field. -/
def Field.type : Field → Expr
  | .mk _ t _ _ _ => t

/-- Struct tag of a field. -/
def Field.tag : Field → Option String
  | .mk _ _ tg _ _ => tg

/-- Comment text attached to a field. -/
def Field.comment : Field → String
  | .mk _ _ _ c _ => c

/-- Source position of a field. -/
def Field.pos : Field → SrcPos
  | .mk _ _ _ _ p => p

/-- Build a `FieldList` from an ordinary list. -/
def FieldList.ofList : List Field → FieldList
  | [] => .fnil
  | f :: fs => .fcons f (FieldList.ofList fs)

/-- Build an `ExprList` from an ordinary list. -/
def ExprList.ofList : List Expr → ExprList
  | [] => .nil
  | e :: es => .cons e (ExprList.ofList es)

/-- Convenience constructor for a field with no tag, comment or position. -/
def mkF (names : List String) (type : Expr) : Field :=
  .mk names type none "" ⟨0, 0⟩

mutual
/-- Embedding of `(*TypeFormatter).Format` from `typefmt.go`, specialised to
`newDefaultTypeFormatter()`: `StructHandler` is `defaultStructHandler`,
`InterfaceHandler` is `defaultInterfaceHandler` and `AliasResolver` is `nil`.
The `other` case is the `default:` branch returning `"interface{}"`.  The
bodies of the non-recursive helpers `formatTuple`, `formatResults`,
`formatFuncSignature`, `defaultStructHandler` and `defaultInterfaceHandler`
are inlined here to keep the recursion structural; the named embeddings of
those helpers are defined right after this block and agree definitionally. -/
def Format : Expr → String
  | .ident n => n
  | .star x => "*" ++ Format x
  | .array elt => "[]" ++ Format elt
  | .mapT k v => "map[" ++ Format k ++ "]" ++ Format v
  | .selector x sel => Format x ++ "." ++ sel
  | .indexE x idx => Format x ++ "[" ++ Format idx ++ "]"
  | .indexList x idxs =>
      Format x ++ "[" ++ String.intercalate ", " (formatExprList idxs) ++ "]"
  | .chanT dir v =>
      match dir with
      | .recv => "<-chan " ++ Format v
      | .send => "chan<- " ++ Format v
      | .both => "chan " ++ Format v
  | .funcT ps rs =>
      "func" ++
        ((match ps with
          | .fnil => "()"
          | _ => "(" ++ String.intercalate ", " (tupleItems ps) ++ ")") ++
         (match rs with
          | .fnil => ""
          | _ =>
            match tupleItems rs with
            | [t] => " " ++ t
            | ts => " (" ++ String.intercalate ", " ts ++ ")"))
  | .ellipsis elt => "..." ++ Format elt
  | .paren x => "(" ++ Format x ++ ")"
  | .interfaceT ms =>
      (match ms with
       | .fnil => "interface\x7b\x7d"
       | _ => "interface\x7b " ++ String.intercalate "; " (interfaceParts ms) ++ " \x7d")
  | .structT fs =>
      (match structParts fs with
       | [] => "struct\x7b\x7d"
       | parts => "struct \x7b " ++ String.intercalate "; " parts ++ " \x7d")
  | .other _ => "interface\x7b\x7d"

/-- Renders each expression of a list (the loop of the `IndexListExpr` case). -/
def formatExprList : ExprList → List String
  | .nil => []
  | .cons e es => Format e :: formatExprList es

/-- The `items` accumulated by the loops of `formatTuple` and
`formatResults`: a field with names contributes `name type` per name, an
unnamed field contributes the bare type once. -/
def tupleItems : FieldList → List String
  | .fnil => []
  | .fcons (.mk names ty _ _ _) rest =>
      let typ := Format ty
      (match names with
       | [] => [typ]
       | _ => names.map (fun n => n ++ " " ++ typ)) ++ tupleItems rest

/-- The `parts` accumulated by `defaultStructHandler`'s loop. -/
def structParts : FieldList → List String
  | .fnil => []
  | .fcons (.mk names ty tg _ _) rest =>
      let typ := Format ty
      let tagText := match tg with
        | some t => " " ++ t
        | none => ""
      (match names with
       | [] => [typ ++ tagText]
       | _ => names.map (fun n => n ++ " " ++ typ ++ tagText)) ++ structParts rest

/-- The `parts` accumulated by `defaultInterfaceHandler`'s loop. -/
def interfaceParts : FieldList → List String
  | .fnil => []
  | .fcons (.mk [] ty _ _ _) rest => Format ty :: interfaceParts rest
  | .fcons (.mk (n :: _) (.funcT ps rs) _ _ _) rest =>
      (n ++
        ((match ps with
          | .fnil => "()"
          | _ => "(" ++ String.intercalate ", " (tupleItems ps) ++ ")") ++
         (match rs with
          | .fnil => ""
          | _ =>
            match tupleItems rs with
            | [t] => " " ++ t
            | ts => " (" ++ String.intercalate ", " ts ++ ")"))) :: interfaceParts rest
  | .fcons (.mk (n :: _) _ _ _ _) rest => n :: interfaceParts rest
end

/-- Embedding of `formatTuple` from `typefmt.go`. -/
def formatTuple (fl : FieldList) : String :=
  match fl with
  | .fnil => "()"
  | _ => "(" ++ String.intercalate ", " (tupleItems fl) ++ ")"

/-- Embedding of `formatResults` from `typefmt.go`: an empty (or `nil`)
result list renders nothing, a single item renders bare after a space, and
several items render as a parenthesized comma list. -/
def formatResults (fl : FieldList) : String :=
  match fl with
  | .fnil => ""
  | _ =>
      match tupleItems fl with
      | [t] => " " ++ t
      | ts => " (" ++ String.intercalate ", " ts ++ ")"

/-- Embedding of `formatFuncSignature` from `typefmt.go`. -/
def formatFuncSignature (ps rs : FieldList) : String :=
  formatTuple ps ++ formatResults rs

/-- Embedding of `defaultStructHandler` from `typefmt.go`. -/
def structHandler (fs : FieldList) : String :=
  match structParts fs with
  | [] => "struct\x7b\x7d"
  | parts => "struct \x7b " ++ String.intercalate "; " parts ++ " \x7d"

/-- Embedding of `defaultInterfaceHandler` from `typefmt.go`. -/
def interfaceHandler (ms : FieldList) : String :=
  match ms with
  | .fnil => "interface\x7b\x7d"
  | _ => "interface\x7b " ++ String.intercalate "; " (interfaceParts ms) ++ " \x7d"

/-- The function-type branch of `Format` delegates to `formatFuncType`,
which is `"func" ++ formatFuncSignature`. -/
theorem format_funcT (ps rs : FieldList) :
    Format (.funcT ps rs) = "func" ++ formatFuncSignature ps rs := rfl

/-- The interface branch of `Format` delegates to the default interface handler. -/
theorem format_interfaceT (ms : FieldList) :
    Format (.interfaceT ms) = interfaceHandler ms := rfl

/-- The struct branch of `Format` delegates to the default struct handler. -/
theorem format_structT (fs : FieldList) :
    Format (.structT fs) = structHandler fs := rfl

/-- Number of results of a function type: a result field with names counts
once per name, an unnamed result field counts once.  (This matches the
number of `items` built by `formatResults`.) -/
def resultCount : FieldList → Nat
  | .fnil => 0
  | .fcons (.mk names _ _ _ _) rest =>
      (match names with
       | [] => 1
       | _ => names.length) + resultCount rest

theorem length_tupleItems : ∀ fl : FieldList, (tupleItems fl).length = resultCount fl
  | .fnil => rfl
  | .fcons (.mk names ty tg c p) rest => by
      cases names <;>
        simp [tupleItems, resultCount, length_tupleItems rest] <;> omega

theorem formatResults_fcons (f : Field) (rest : FieldList) :
    formatResults (.fcons f rest) =
      match tupleItems (.fcons f rest) with
      | [t] => " " ++ t
      | ts => " (" ++ String.intercalate ", " ts ++ ")" := rfl

theorem resultCount_eq_zero : ∀ fl : FieldList, resultCount fl = 0 → fl = .fnil
  | .fnil, _ => rfl
  | .fcons (.mk names ty tg c p) rest, h => by
      exfalso
      cases names <;> simp [resultCount] at h

/-- C9: for every function type rendered by the type formatter, zero results
render nothing after the parameter list, exactly one result renders as a
bare trailing type, and two or more results render as a parenthesized
comma-separated list. -/
theorem c9_func_results_rendering (ps rs : FieldList) :
    (resultCount rs = 0 → Format (.funcT ps rs) = "func" ++ formatTuple ps) ∧
    (resultCount rs = 1 →
      ∃ t, tupleItems rs = [t] ∧
        Format (.funcT ps rs) = "func" ++ formatTuple ps ++ (" " ++ t)) ∧
    (2 ≤ resultCount rs →
      Format (.funcT ps rs) =
        "func" ++ formatTuple ps ++
          (" (" ++ String.intercalate ", " (tupleItems rs) ++ ")")) := by
  refine ⟨?_, ?_, ?_⟩
  · intro h0
    have : rs = .fnil := resultCount_eq_zero rs h0
    subst this
    simp [format_funcT, formatFuncSignature, formatResults]
  · intro h1
    have hlen : (tupleItems rs).length = 1 := by
      rw [length_tupleItems]; exact h1
    obtain ⟨t, ht⟩ : ∃ t, tupleItems rs = [t] := by
      match hm : tupleItems rs with
      | [t] => exact ⟨t, rfl⟩
      | [] => rw [hm] at hlen; simp at hlen
      | a :: b :: l => rw [hm] at hlen; simp at hlen
    refine ⟨t, ht, ?_⟩
    have hne : rs ≠ .fnil := by
      intro h
      subst h
      simp [resultCount] at h1
    rw [format_funcT, formatFuncSignature]
    have hres : formatResults rs = " " ++ t := by
      cases rs with
      | fnil => exact absurd rfl hne
      | fcons f rest => rw [formatResults_fcons, ht]
    rw [hres, ← String.append_assoc]
  · intro h2
    have hne : rs ≠ .fnil := by
      intro h
      subst h
      simp [resultCount] at h2
    have hlen : 2 ≤ (tupleItems rs).length := by
      rw [length_tupleItems]; exact h2
    have hres : formatResults rs =
        " (" ++ String.intercalate ", " (tupleItems rs) ++ ")" := by
      cases rs with
      | fnil => exact absurd rfl hne
      | fcons f rest =>
        rcases hm : tupleItems (FieldList.fcons f rest) with _ | ⟨a, _ | ⟨b, l⟩⟩
        · rw [hm] at hlen; exact absurd hlen (by simp)
        · rw [hm] at hlen; exact absurd hlen (by simp)
        · rw [formatResults_fcons, hm]
    rw [format_funcT, formatFuncSignature, hres, ← String.append_assoc]

/-- Witness for `c9_func_results_rendering`: the three arity cases at
concrete function types (`func()`, `func() int`, `func() (int, error)`). -/
theorem c9_func_results_rendering_witness :
    Format (.funcT .fnil .fnil) = "func" ++ formatTuple .fnil ∧
    (∃ t, tupleItems (FieldList.ofList [mkF [] (.ident "int")]) = [t] ∧
      Format (.funcT .fnil (.ofList [mkF [] (.ident "int")])) =
        "func" ++ formatTuple .fnil ++ (" " ++ t)) ∧
    Format (.funcT .fnil (.ofList [mkF [] (.ident "int"), mkF [] (.ident "error")])) =
      "func" ++ formatTuple .fnil ++
        (" (" ++ String.intercalate ", "
          (tupleItems (FieldList.ofList [mkF [] (.ident "int"), mkF [] (.ident "error")])) ++ ")") :=
  ⟨(c9_func_results_rendering .fnil .fnil).1 (by decide),
   (c9_func_results_rendering .fnil (.ofList [mkF [] (.ident "int")])).2.1 (by decide),
   (c9_func_results_rendering .fnil
      (.ofList [mkF [] (.ident "int"), mkF [] (.ident "error")])).2.2 (by decide)⟩

/-- C10: `Format` is a total function of the expression (it is defined by
structural recursion over `Expr`, with no failure path), and every
expression kind outside the handled set — modelled by the `Expr.other`
constructor standing for the `default:` branch of the Go `switch` — renders
as the literal fallback text `interface{}`. -/
theorem c10_format_total_fallback (k : String) :
    Format (.other k) = "interface\x7b\x7d" := rfl

/-! ### Annotation directives (constants file and `StructParser` flag queries)

The constants file declares the patterns

  GobConstructorExported = `\b+gob:Constructor\b`
  GobConstructorPackage  = `\b+gob:constructor\b`
  GobConstructorNone = GobFlagOptional = `\b+gob:_\b`
  GobFlagGetter = `\b+gob:getter\b`
  GobFlagAcronym = `\b+gob:acronym\b`

compiled once in `init`.  In RE2 (Go's `regexp`) `\b` is a zero-width ASCII
word-boundary assertion and `+` is an ordinary repetition operator, so
`\b+` is one-or-more word boundaries, which is equivalent to a single
`\b`: each pattern matches its `gob:...` token enclosed in word
boundaries, and the leading `+` of the written annotation is *not* part of
the matched text.  `scanToken` below implements exactly this leftmost
scan. -/

/-- ASCII word characters: the `\b` boundary class `[0-9A-Za-z_]` of RE2. -/
def isWordChar (c : Char) : Bool := c.isAlphanum || c = '_'

/-- Word boundary between two adjacent positions, where `none` stands for
the start or end of the text: a boundary exists when exactly one side is a
word character. -/
def isBoundary (left right : Option Char) : Bool :=
  (left.elim false isWordChar) != (right.elim false isWordChar)

/-- Does `tok` occur at the very start of `s`, with word boundaries on both
sides?  `prev` is the character immediately before this position. -/
def tokenHere (tok : List Char) (prev : Option Char) (s : List Char) : Bool :=
  tok.isPrefixOf s &&
  isBoundary prev tok.head? &&
  isBoundary tok.getLast? ((s.drop tok.length).head?)

/-- Scan `s` left to right for a boundary-delimited occurrence of `tok`
(the semantics of `regexp.MatchString` for a pattern `\b+tok\b`). -/
def scanToken (tok : List Char) : Option Char → List Char → Bool
  | prev, [] => tokenHere tok prev []
  | prev, c :: rest => tokenHere tok prev (c :: rest) || scanToken tok (some c) rest

/-- Embedding of `Regexp.MatchString` for the directive patterns: match a
word-boundary-delimited token anywhere in the comment text. -/
def matchesToken (tok s : String) : Bool :=
  scanToken tok.toList none s.toList

/-- The directive text matched by `GobConstructorExported`. -/
def gobTokenConstructorExported : String := "gob:Constructor"

/-- The directive text matched by `GobConstructorPackage`. -/
def gobTokenConstructorPackage : String := "gob:constructor"

/-- The directive text matched by `GobFlagGetter`. -/
def gobTokenGetter : String := "gob:getter"

/-- The directive text matched by `GobFlagAcronym`. -/
def gobTokenAcronym : String := "gob:acronym"

/-- The directive text matched by `GobConstructorNone` and
`GobFlagOptional` (the same pattern serves both roles). -/
def gobTokenOptional : String := "gob:_"

/-- `ConstructorExportedRegexp.MatchString`. -/
def constructorExportedMatch (comment : String) : Bool :=
  matchesToken gobTokenConstructorExported comment

/-- `ConstructorPackageRegexp.MatchString`. -/
def constructorPackageMatch (comment : String) : Bool :=
  matchesToken gobTokenConstructorPackage comment

/-- `FlagGetterRegexp.MatchString`. -/
def flagGetterMatch (comment : String) : Bool :=
  matchesToken gobTokenGetter comment

/-- `FlagAcronymRegexp.MatchString`. -/
def flagAcronymMatch (comment : String) : Bool :=
  matchesToken gobTokenAcronym comment

/-- `FlagOptionalRegexp.MatchString` (also `ConstructorNoRegexp`). -/
def flagOptionalMatch (comment : String) : Bool :=
  matchesToken gobTokenOptional comment

/-- The character to the left of the scan position: the last character of
the consumed prefix, or the caller-supplied predecessor when the prefix is
empty. -/
def lastChar (prev : Option Char) (pre : List Char) : Option Char :=
  match pre.getLast? with
  | some c => some c
  | none => prev

/-- Declarative reading of the directive patterns: the token occurs as a
whole word-boundary-delimited chunk somewhere in the text. -/
def DelimitedHit (tok s : List Char) : Prop :=
  ∃ pre post, s = pre ++ tok ++ post ∧
    isBoundary pre.getLast? tok.head? = true ∧
    isBoundary tok.getLast? post.head? = true

theorem lastChar_cons (prev : Option Char) (c : Char) (pre : List Char) :
    lastChar prev (c :: pre) = lastChar (some c) pre := by
  cases pre with
  | nil => simp [lastChar]
  | cons d l =>
      obtain ⟨e, he⟩ : ∃ e, (d :: l).getLast? = some e := by
        cases h : (d :: l).getLast? with
        | some e => exact ⟨e, rfl⟩
        | none =>
            exfalso
            rw [List.getLast?_eq_none_iff] at h
            simp at h
      have h2 : (c :: d :: l).getLast? = some e := by
        rw [List.getLast?_cons_cons, he]
      simp [lastChar, he, h2]

theorem scanToken_iff (tok : List Char) (htok : tok ≠ []) :
    ∀ (s : List Char) (prev : Option Char),
      scanToken tok prev s = true ↔
        ∃ pre post, s = pre ++ tok ++ post ∧
          isBoundary (lastChar prev pre) tok.head? = true ∧
          isBoundary tok.getLast? post.head? = true := by
  intro s
  induction s with
  | nil =>
      intro prev
      constructor
      · intro h
        exfalso
        simp only [scanToken] at h
        unfold tokenHere at h
        have hpre : tok.isPrefixOf ([] : List Char) = true := by
          cases hp : tok.isPrefixOf ([] : List Char) with
          | true => rfl
          | false => rw [hp] at h; simp at h
        cases tok with
        | nil => exact htok rfl
        | cons a l => simp [List.isPrefixOf] at hpre
      · rintro ⟨pre, post, hsplit, _, _⟩
        exfalso
        have : pre ++ tok ++ post ≠ [] := by
          cases tok with
          | nil => exact absurd rfl htok
          | cons a l => simp
        exact this hsplit.symm
  | cons c rest ih =>
      intro prev
      simp only [scanToken]
      constructor
      · intro h
        have h2 : tokenHere tok prev (c :: rest) = true ∨
            scanToken tok (some c) rest = true := by
          simpa using h
        rcases h2 with hhere | hrec
        · unfold tokenHere at hhere
          simp only [Bool.and_eq_true] at hhere
          obtain ⟨⟨hpre, hb1⟩, hb2⟩ := hhere
          obtain ⟨t, ht⟩ : ∃ t, tok ++ t = c :: rest := by
            have := List.isPrefixOf_iff_prefix.mp hpre
            exact this
          refine ⟨[], t, by simp [ht.symm], ?_, ?_⟩
          · simpa [lastChar] using hb1
          · have hdrop : (c :: rest).drop tok.length = t := by
              rw [← ht, List.drop_left]
            rw [hdrop] at hb2
            exact hb2
        · obtain ⟨pre, post, hsplit, hb1, hb2⟩ := (ih (some c)).mp hrec
          refine ⟨c :: pre, post, by simp [hsplit], ?_, hb2⟩
          rw [lastChar_cons]
          exact hb1
      · rintro ⟨pre, post, hsplit, hb1, hb2⟩
        cases pre with
        | nil =>
            have hh : tokenHere tok prev (c :: rest) = true := by
              simp only [List.nil_append] at hsplit
              unfold tokenHere
              simp only [Bool.and_eq_true]
              refine ⟨⟨?_, ?_⟩, ?_⟩
              · exact List.isPrefixOf_iff_prefix.mpr ⟨post, hsplit.symm⟩
              · simpa [lastChar] using hb1
              · have hdrop : (c :: rest).drop tok.length = post := by
                  rw [hsplit, List.drop_left]
                rw [hdrop]
                exact hb2
            rw [hh, Bool.true_or]
        | cons c2 pre2 =>
            have hh : scanToken tok (some c) rest = true := by
              simp only [List.cons_append, List.cons.injEq] at hsplit
              obtain ⟨hc, hrest⟩ := hsplit
              subst hc
              refine (ih (some c)).mpr ⟨pre2, post, hrest, ?_, hb2⟩
              rw [← lastChar_cons prev]
              exact hb1
            rw [hh, Bool.or_true]

theorem matchesToken_iff (tok s : String) (htok : tok.toList ≠ []) :
    matchesToken tok s = true ↔ DelimitedHit tok.toList s.toList := by
  unfold matchesToken DelimitedHit
  rw [scanToken_iff tok.toList htok s.toList none]
  constructor
  · rintro ⟨pre, post, h, hb1, hb2⟩
    refine ⟨pre, post, h, ?_, hb2⟩
    cases hp : pre.getLast? with
    | none => simpa [lastChar, hp] using hb1
    | some d => simpa [lastChar, hp] using hb1
  · rintro ⟨pre, post, h, hb1, hb2⟩
    refine ⟨pre, post, h, ?_, hb2⟩
    cases hp : pre.getLast? with
    | none =>
        rw [List.getLast?_eq_none_iff] at hp
        subst hp
        simpa [lastChar] using hb1
    | some d => simpa [lastChar, hp] using hb1

/-- C6: for every comment text, each directive pattern (exported
constructor, package constructor, getter, acronym, and the shared
optional/no-constructor marker) is recognized exactly when its directive
token occurs as a whole word-boundary-delimited chunk of the comment.
Consequently trailing free text after the directive does not prevent
recognition, while a token occurring only inside a longer word is not
recognized; the concrete conjuncts witness both behaviours. -/
theorem c6_directive_token_recognition :
    (∀ s, constructorExportedMatch s = true ↔
        DelimitedHit gobTokenConstructorExported.toList s.toList) ∧
    (∀ s, constructorPackageMatch s = true ↔
        DelimitedHit gobTokenConstructorPackage.toList s.toList) ∧
    (∀ s, flagGetterMatch s = true ↔ DelimitedHit gobTokenGetter.toList s.toList) ∧
    (∀ s, flagAcronymMatch s = true ↔ DelimitedHit gobTokenAcronym.toList s.toList) ∧
    (∀ s, flagOptionalMatch s = true ↔ DelimitedHit gobTokenOptional.toList s.toList) ∧
    constructorExportedMatch "+gob:Constructor some other text" = true ∧
    flagGetterMatch "+gob:getter +gob:acronym" = true ∧
    flagAcronymMatch "+gob:getter +gob:acronym" = true ∧
    constructorExportedMatch "+gob:Constructors" = false ∧
    constructorExportedMatch "agob:Constructor" = false ∧
    flagGetterMatch "+gob:getters" = false :=
  ⟨fun s => matchesToken_iff gobTokenConstructorExported s (by decide),
   fun s => matchesToken_iff gobTokenConstructorPackage s (by decide),
   fun s => matchesToken_iff gobTokenGetter s (by decide),
   fun s => matchesToken_iff gobTokenAcronym s (by decide),
   fun s => matchesToken_iff gobTokenOptional s (by decide),
   by decide, by decide, by decide, by decide, by decide, by decide⟩

/-! ### Struct discovery (`findAllStructs` / `findInnerStructs` in `main.go`) -/

/-- Descriptor of a discovered struct — `StructInfo` in `main.go`.
`isTop` mirrors `TypeSpec != nil` (top-level declaration vs anonymous
nested struct). -/
structure StructInfo where
  name : String
  fields : FieldList
  isTop : Bool
  parentPath : String

/-- A top-level `type Name struct {...}`-style declaration (`ast.TypeSpec`);
`type` is a struct literal only for struct declarations. -/
structure TypeSpec where
  name : String
  type : Expr

/-- The anonymous-struct test of `findInnerStructs` in `main.go`: a field
type that is a struct literal, or a pointer to a struct literal (exactly
one `StarExpr` level), yields the struct's field list. -/
def fieldInner : Expr → Option FieldList
  | .structT fl => some fl
  | .star (.structT fl) => some fl
  | _ => none

theorem sizeOf_fieldInner {ty : Expr} {fl : FieldList}
    (h : fieldInner ty = some fl) : sizeOf fl < sizeOf ty := by
  match ty, h with
  | .structT fl2, h =>
      simp only [fieldInner, Option.some.injEq] at h
      subst h
      simp
  | .star (.structT fl2), h =>
      simp only [fieldInner, Option.some.injEq] at h
      subst h
      simp
      omega

/-- Embedding of `findInnerStructs` from `main.go`: walk the fields in
declaration order; a field whose type is an anonymous struct — directly or
behind a single pointer — yields, for each of its names, a descriptor named
`parentName ++ fieldName` (no separator) immediately followed by the
recursively discovered descendants of that struct, before the walk moves to
the remaining names and fields. -/
def findInnerStructs : FieldList → String → List StructInfo
  | .fnil, _ => []
  | .fcons (.mk names ty _ _ _) rest, parent =>
      (match _hfi : fieldInner ty with
       | some inner =>
          names.flatMap fun n =>
            ⟨parent ++ n, inner, false, parent ++ "." ++ n⟩ ::
              findInnerStructs inner (parent ++ n)
       | none => []) ++
      findInnerStructs rest parent
termination_by fl _ => sizeOf fl
decreasing_by
  all_goals first
    | (have h2 := sizeOf_fieldInner _hfi
       simp
       omega)
    | simp

/-- Embedding of `findAllStructs` from `main.go` over the file's sequence of
type declarations: each struct-shaped declaration contributes its own
descriptor immediately followed by its recursively nested anonymous
descendants. -/
def findAllStructs : List TypeSpec → List StructInfo
  | [] => []
  | ts :: rest =>
      (match ts.type with
       | .structT fl =>
          ⟨ts.name, fl, true, ""⟩ :: findInnerStructs fl ts.name
       | _ => []) ++ findAllStructs rest

/-- The containment forest of anonymous nested structs, declaratively: one
tree node per (anonymous-struct field, declared name) pair, children in
field-declaration order. -/
inductive DiscTree where
  | node (info : StructInfo) (children : List DiscTree)

mutual
/-- Depth-first pre-order flattening of a containment tree. -/
def flattenPre : DiscTree → List StructInfo
  | .node info cs => info :: flattenForest cs

/-- Depth-first pre-order flattening of a containment forest. -/
def flattenForest : List DiscTree → List StructInfo
  | [] => []
  | t :: ts => flattenPre t ++ flattenForest ts
end

/-- Build the containment forest of a field list. -/
def discChildren : FieldList → String → List DiscTree
  | .fnil, _ => []
  | .fcons (.mk names ty _ _ _) rest, parent =>
      (match _hfi : fieldInner ty with
       | some inner =>
          names.map fun n =>
            DiscTree.node ⟨parent ++ n, inner, false, parent ++ "." ++ n⟩
              (discChildren inner (parent ++ n))
       | none => []) ++
      discChildren rest parent
termination_by fl _ => sizeOf fl
decreasing_by
  all_goals first
    | (have h2 := sizeOf_fieldInner _hfi
       simp
       omega)
    | simp

/-- The (field name, anonymous struct body) pairs of a field list, in
declaration order — used to characterize the names assigned at one level. -/
def innerNamePairs : FieldList → List (String × FieldList)
  | .fnil => []
  | .fcons (.mk names ty _ _ _) rest =>
      (match fieldInner ty with
       | some inner => names.map (fun n => (n, inner))
       | none => []) ++ innerNamePairs rest

theorem flattenForest_append (xs ys : List DiscTree) :
    flattenForest (xs ++ ys) = flattenForest xs ++ flattenForest ys := by
  induction xs with
  | nil => simp [flattenForest]
  | cons t ts ih => simp [flattenForest, ih]

theorem findInner_eq_flatten_aux :
    ∀ (k : Nat) (fl : FieldList) (p : String), sizeOf fl < k →
      findInnerStructs fl p = flattenForest (discChildren fl p) := by
  intro k
  induction k with
  | zero => intro fl p h; exact absurd h (by omega)
  | succ k ih =>
      intro fl p h
      match fl with
      | .fnil => simp [findInnerStructs, discChildren, flattenForest]
      | .fcons (.mk names ty tg cm ps) rest =>
          have hb : sizeOf ty < k ∧ sizeOf rest < k := by
            simp at h
            omega
          simp only [findInnerStructs, discChildren]
          rw [flattenForest_append]
          congr 1
          · cases hfi : fieldInner ty with
            | none => simp [hfi, flattenForest]
            | some inner =>
                simp only [hfi]
                have hsz : sizeOf inner < k := by
                  have := sizeOf_fieldInner hfi
                  omega
                clear h hb
                induction names with
                | nil => simp [flattenForest]
                | cons n ns2 ihn =>
                    simp [flattenForest, flattenPre, ih inner (p ++ n) hsz, ihn]
          · exact ih rest p hb.2

/-- The discovery walk over a field list produces exactly the depth-first
pre-order flattening of the containment forest. -/
theorem findInner_eq_flatten (fl : FieldList) (p : String) :
    findInnerStructs fl p = flattenForest (discChildren fl p) :=
  findInner_eq_flatten_aux (sizeOf fl + 1) fl p (by omega)

/-- Naming characterization: the containment forest has one node per
(anonymous-struct field, name) pair, in declaration order, and the node
for field name `n` under parent `p` is named `p ++ n` (no separator), its
children being the forest of the nested struct under the extended name. -/
theorem discChildren_eq_pairs : ∀ (fl : FieldList) (p : String),
    discChildren fl p = (innerNamePairs fl).map
      (fun q => DiscTree.node ⟨p ++ q.1, q.2, false, p ++ "." ++ q.1⟩
        (discChildren q.2 (p ++ q.1)))
  | .fnil, p => by simp [discChildren, innerNamePairs]
  | .fcons (.mk names ty tg cm ps) rest, p => by
      simp only [discChildren, innerNamePairs]
      rw [List.map_append, discChildren_eq_pairs rest p]
      congr 1
      cases hfi : fieldInner ty with
      | none => simp [hfi]
      | some inner => simp [hfi, List.map_map, Function.comp_def]

/-- C8: discovery over a file is a flat list in which each top-level record
is immediately followed by the depth-first pre-order flattening of its
containment forest of anonymous nested records (field-declaration order
preserved at every level) before the next top-level record; by
`discChildren_eq_pairs` (second conjunct), each anonymous nested record is
named by concatenating the parent's name and the field name with no
separator, recursively; and a pointer-to-anonymous-struct field is
discovered and named exactly like a direct anonymous-struct field. -/
theorem c8_discovery_order_and_naming :
    (∀ specs : List TypeSpec,
      findAllStructs specs = specs.flatMap (fun ts =>
        match ts.type with
        | .structT fl =>
            ⟨ts.name, fl, true, ""⟩ :: flattenForest (discChildren fl ts.name)
        | _ => [])) ∧
    (∀ (fl : FieldList) (p : String),
      discChildren fl p = (innerNamePairs fl).map
        (fun q => DiscTree.node ⟨p ++ q.1, q.2, false, p ++ "." ++ q.1⟩
          (discChildren q.2 (p ++ q.1)))) ∧
    (∀ (names : List String) (inner : FieldList) (tg : Option String)
       (cm : String) (ps : SrcPos) (rest : FieldList) (p : String),
      findInnerStructs (.fcons (.mk names (.star (.structT inner)) tg cm ps) rest) p =
        findInnerStructs (.fcons (.mk names (.structT inner) tg cm ps) rest) p) := by
  refine ⟨?_, discChildren_eq_pairs, ?_⟩
  · intro specs
    induction specs with
    | nil => rfl
    | cons ts rest ih =>
        simp only [findAllStructs, List.flatMap_cons]
        rw [ih]
        congr 1
        cases h : ts.type <;> simp [findInner_eq_flatten]
  · intro names inner tg cm ps rest p
    simp only [findInnerStructs]
    rfl

/-! ### Alias emission for anonymous nested records (`main.go`)

`findInnerStructs` assigns the raw concatenated name, and the emission path
uses it verbatim: `generateCodeForFile` emits one alias declaration per
annotated inner record via `generateInnerStructTypeDefinition`
(`type <structInfo.Name> = ...`), and the builder loop takes
`structName := structInfo.Name`.  No collision resolution exists anywhere
in the source, although spec §4.4 and the repository's own test
`TestAliasCollisionGetsResolved` demand `base_N` suffixing. -/

mutual
/-- Embedding of `getFieldTypeFromASTWithAliases` from `main.go` (its
`allStructs` parameter is threaded through the source recursion but never
consulted, so it is dropped).  Unlike `Format`, the `default:` branch of
this switch also swallows channel, function, generic, parenthesized and
ellipsis types.  The body of `buildStructTypeStringFromAST` is inlined in
the struct case to keep the recursion structural; its named embedding
follows the block and agrees definitionally. -/
def getFieldTypeFromAST : Expr → String
  | .ident n => n
  | .star x => "*" ++ getFieldTypeFromAST x
  | .array elt => "[]" ++ getFieldTypeFromAST elt
  | .mapT k v =>
      "map[" ++ getFieldTypeFromAST k ++ "]" ++ getFieldTypeFromAST v
  | .selector x sel => getFieldTypeFromAST x ++ "." ++ sel
  | .interfaceT _ => "interface\x7b\x7d"
  | .structT st =>
      "struct \x7b " ++ String.intercalate "; " (buildStructParts st) ++ " \x7d"
  | _ => "interface\x7b\x7d"

/-- The `fieldParts` loop of `buildStructTypeStringFromAST` in `main.go`:
one part per declared name (an embedded unnamed field contributes
nothing), with the tag text appended verbatim. -/
def buildStructParts : FieldList → List String
  | .fnil => []
  | .fcons (.mk names ty tg _ _) rest =>
      let ft := getFieldTypeFromAST ty
      let tagText := match tg with
        | some t => " " ++ t
        | none => ""
      names.map (fun n => n ++ " " ++ ft ++ tagText) ++ buildStructParts rest
end

/-- Embedding of `buildStructTypeStringFromAST` from `main.go`. -/
def buildStructTypeString (st : FieldList) : String :=
  "struct \x7b " ++ String.intercalate "; " (buildStructParts st) ++ " \x7d"

/-- Embedding of `generateInnerStructTypeDefinition` from `main.go`: the
emitted alias declaration uses `structInfo.Name` verbatim — no
uniquification happens between discovery and emission. -/
def generateInnerStructTypeDefinition (si : StructInfo) : String :=
  "type " ++ si.name ++ " = " ++ buildStructTypeString si.fields ++ "\n\n"

/-- The body of the innermost anonymous struct of the repository's
`TestAliasCollisionGetsResolved` input (`struct { Value int }`). -/
def wrapValueBody : FieldList :=
  .ofList [.mk ["Value"] (.ident "int") none "" ⟨3, 3⟩]

/-- The body of the anonymous struct under field `B` of the same input:
a single annotated anonymous-struct field `X`. -/
def wrapBInner : FieldList :=
  .ofList [.mk ["X"] (.structT wrapValueBody) none "+gob:Constructor" ⟨6, 3⟩]

/-- The `Wrap` struct of `TestAliasCollisionGetsResolved`: field `BX` is an
annotated anonymous struct, field `B` is an anonymous struct containing the
annotated anonymous struct field `X` — so `Wrap.BX` and `Wrap.B.X` both
synthesize the name `WrapBX`. -/
def wrapBody : FieldList :=
  .ofList
    [.mk ["BX"] (.structT wrapValueBody) none "+gob:Constructor" ⟨2, 2⟩,
     .mk ["B"] (.structT wrapBInner) none "" ⟨5, 2⟩]

/-- The parsed file of `TestAliasCollisionGetsResolved`. -/
def wrapFile : List TypeSpec := [⟨"Wrap", .structT wrapBody⟩]

/-- C4, evaluated on the code as it stands: on the repository's own
`TestAliasCollisionGetsResolved` input, discovery synthesizes the base
name `WrapBX` twice (for `Wrap.BX` and for `Wrap.B.X`), no suffixed name
`WrapBX_2` is ever produced, and the alias-emission path — which uses
`structInfo.Name` verbatim — renders two identical
`type WrapBX = struct { Value int }` declarations.  (On this input exactly
the two `WrapBX` records carry the owner-field constructor annotation, so
the name filter of the last conjunct selects precisely the alias-emitted
records.)  The repository's test demands the aliases `WrapBX` and
`WrapBX_2`, and spec §4.4 demands smallest-unused `base_N` collision
resolution; no such resolution exists anywhere in the source. -/
theorem c4_duplicate_alias_emitted :
    (findAllStructs wrapFile).map StructInfo.name =
      ["Wrap", "WrapBX", "WrapB", "WrapBX"] ∧
    ((findAllStructs wrapFile).map StructInfo.name).count "WrapBX" = 2 ∧
    ((findAllStructs wrapFile).map StructInfo.name).count "WrapBX_2" = 0 ∧
    ((findAllStructs wrapFile).filter
        (fun si => !si.isTop && si.name == "WrapBX")).map
      generateInnerStructTypeDefinition =
      ["type WrapBX = struct \x7b Value int \x7d\n\n",
       "type WrapBX = struct \x7b Value int \x7d\n\n"] := by
  have hall : findAllStructs wrapFile =
      [⟨"Wrap", wrapBody, true, ""⟩,
       ⟨"WrapBX", wrapValueBody, false, "Wrap.BX"⟩,
       ⟨"WrapB", wrapBInner, false, "Wrap.B"⟩,
       ⟨"WrapBX", wrapValueBody, false, "WrapB.X"⟩] := by
    simp [wrapFile, wrapBody, wrapBInner, wrapValueBody, findAllStructs,
      findInnerStructs, fieldInner, FieldList.ofList]
  rw [hall]
  refine ⟨by decide, by decide, by decide, ?_⟩
  simp only [List.filter, List.map]
  decide

/-! ### Field flags, export names and the per-record processing loop
(`generateCodeForFile` in `main.go`).  The `StructParser` flag queries,
`exportName`, `StructField.GenerateGetter` and the identifier assembly live
in repository files absent from the snapshot; they are modelled from the
compiled regex constants, the spec, and the repository's tests, as each doc
comment notes. -/

/-- `(*StructParser).fieldGetter` — whether the field's comment carries the
getter directive.  The parser file is absent from the snapshot; its
behaviour is fixed by the compiled `FlagGetterRegexp` constant. -/
def fieldGetter (f : Field) : Bool := flagGetterMatch f.comment

/-- `(*StructParser).fieldOptional` — the `gob:_` optional marker. -/
def fieldOptional (f : Field) : Bool := flagOptionalMatch f.comment

/-- `(*StructParser).fieldAcronym` — the `gob:acronym` marker. -/
def fieldAcronym (f : Field) : Bool := flagAcronymMatch f.comment

/-- Constructor visibility of a processed record (`ExportedVisibility`,
`PackageLevelVisibility`, `NoVisibility` in the repository). -/
inductive Visibility where
  | exported
  | packageLevel
  | noVisibility
deriving DecidableEq, Repr

/-- `strings.ToUpper` on ASCII identifiers, character by character. -/
def toUpperAscii (s : String) : String :=
  String.mk (s.toList.map Char.toUpper)

/-- `strings.ToLower` on ASCII identifiers, character by character. -/
def toLowerAscii (s : String) : String :=
  String.mk (s.toList.map Char.toLower)

/-- Capitalize the first character, leaving the rest unchanged
(`firstName ↦ FirstName`). -/
def capitalizeFirst (s : String) : String :=
  match s.toList with
  | [] => ""
  | c :: rest => String.mk (c.toUpper :: rest)

/-- Modelled from the spec (§4.5) and the repository's tests: `exportName` —
the effective exported display name used in generated identifiers.  An
acronym field renders fully upper-cased (`dob ↦ DOB`), any other field with
only its first letter capitalized (`firstName ↦ FirstName`).  The file
defining `exportName` is absent from the snapshot. -/
def exportName (name : String) (acronym : Bool) : String :=
  if acronym then toUpperAscii name else capitalizeFirst name

/-- Embedding of `deriveEmbeddedFieldName` from `main.go`: the logical name
of an embedded (anonymous) field — a bare identifier yields itself, a
pointer defers to its pointee, a qualified name yields the unqualified
selector, anything else yields the empty string. -/
def deriveEmbeddedFieldName : Expr → String
  | .ident n => n
  | .star x => deriveEmbeddedFieldName x
  | .selector _ sel => sel
  | _ => ""

/-- `unicode.IsUpper(rune(name[0]))` on the first character of an (ASCII)
identifier; an empty name yields `false`. -/
def upperFirst (s : String) : Bool :=
  match s.toList with
  | [] => false
  | c :: _ => c.isUpper

/-- The validation error text built by `generateCodeForFile` in
`src/main.go`.  Note that it interpolates exactly the field name and the
record name — the source position of the field is not part of the message
(`\x27` is an ASCII single quote). -/
def getterErrorText (fieldName structName : String) : String :=
  "field \x27" ++ fieldName ++ "\x27 in struct \x27" ++ structName ++
    "\x27 has //+gob:getter annotation but starts with uppercase. " ++
    "Getter annotation should only be used with private (lowercase) fields"

/-- The `StructField` record of the repository (the fields that naming and
getter generation consume; the record-level `StructFlags` pointer is
represented by passing the visibility separately). -/
structure StructField where
  structName : String
  fieldName : String
  fieldTypeText : String
  acronym : Bool
deriving DecidableEq, Repr

deriving instance DecidableEq for Except

/-- Modelled from the spec and the repository's tests:
`StructField.GenerateGetter` emits exactly one accessor method for the
field — `func (v *Person) FirstName() string`, `func (v *Contact) DOB()
string`. -/
def generateGetter (sf : StructField) : String :=
  "func (v *" ++ sf.structName ++ ") " ++
    exportName sf.fieldName sf.acronym ++ "() " ++ sf.fieldTypeText

/-- The effective names a field contributes in `generateCodeForFile`'s
loop: its declared names, or — for an embedded field — the single
synthesized name when `deriveEmbeddedFieldName` yields one. -/
def effNames (f : Field) : List String :=
  match f.names with
  | [] =>
      let n := deriveEmbeddedFieldName f.type
      if n = "" then [] else [n]
  | ns => ns

/-- One (field, effective name) occurrence of `generateCodeForFile`'s
per-record loop (src/main.go, both the embedded and the named branch): a
getter directive on an upper-case-leading effective name is a fatal
validation error; otherwise the occurrence contributes its builder-chain
entry (when the record builds a constructor and the field is not optional)
and its accessor (when the getter directive is set and the record is a
top-level declaration — records emitted as aliases cannot carry methods).
The field's rendered type stands in for `fieldTypeText`. -/
def processOccurrence (structName : String) (isTop : Bool) (vis : Visibility)
    (f : Field) (n : String) : Except String (List StructField × List String) :=
  if fieldGetter f && upperFirst n then
    .error (getterErrorText n structName)
  else
    let sf : StructField := ⟨structName, n, Format f.type, fieldAcronym f⟩
    .ok (if vis ≠ .noVisibility && !fieldOptional f then [sf] else [],
         if fieldGetter f && isTop then [generateGetter sf] else [])

/-- Process the effective names of one field, left to right, stopping at the
first validation error (a `return` in the Go loop aborts the whole file). -/
def processOccs (structName : String) (isTop : Bool) (vis : Visibility)
    (f : Field) : List String → Except String (List StructField × List String)
  | [] => .ok ([], [])
  | n :: ns =>
      match processOccurrence structName isTop vis f n with
      | .error e => .error e
      | .ok r1 =>
          match processOccs structName isTop vis f ns with
          | .error e => .error e
          | .ok r2 => .ok (r1.1 ++ r2.1, r1.2 ++ r2.2)

/-- The per-record field loop of `generateCodeForFile` (specialised to the
default annotated-only generation mode, where no exported-field skip
applies): collect the builder-chain fields and the emitted accessors in
declaration order, failing on the first getter validation error. -/
def processFields (structName : String) (isTop : Bool) (vis : Visibility) :
    List Field → Except String (List StructField × List String)
  | [] => .ok ([], [])
  | f :: fs =>
      match processOccs structName isTop vis f (effNames f) with
      | .error e => .error e
      | .ok r1 =>
          match processFields structName isTop vis fs with
          | .error e => .error e
          | .ok r2 => .ok (r1.1 ++ r2.1, r1.2 ++ r2.2)

/-- The accessor emitted for one occurrence. -/
def occAccessor (sn : String) (f : Field) (n : String) : String :=
  generateGetter ⟨sn, n, Format f.type, fieldAcronym f⟩

theorem processOccurrence_ok_no_upper {sn : String} {isTop : Bool}
    {vis : Visibility} {f : Field} {n : String}
    {out : List StructField × List String}
    (h : processOccurrence sn isTop vis f n = .ok out)
    (hg : fieldGetter f = true) : upperFirst n = false := by
  unfold processOccurrence at h
  by_cases hc : (fieldGetter f && upperFirst n) = true
  · rw [if_pos hc] at h
    exact absurd h (by simp)
  · simp only [hg, Bool.true_and] at hc
    exact Bool.of_not_eq_true hc

theorem processOccurrence_ok_parts {sn : String} {isTop : Bool}
    {vis : Visibility} {f : Field} {n : String}
    {out : List StructField × List String}
    (h : processOccurrence sn isTop vis f n = .ok out) :
    out.2 = if fieldGetter f && isTop then [occAccessor sn f n] else [] := by
  unfold processOccurrence at h
  by_cases hc : (fieldGetter f && upperFirst n) = true
  · rw [if_pos hc] at h
    exact absurd h (by simp)
  · rw [if_neg hc] at h
    injection h with h2
    subst h2
    simp [occAccessor]

theorem processOccurrence_error_parts {sn : String} {isTop : Bool}
    {vis : Visibility} {f : Field} {n : String} {e : String}
    (h : processOccurrence sn isTop vis f n = .error e) :
    fieldGetter f = true ∧ upperFirst n = true ∧ e = getterErrorText n sn := by
  unfold processOccurrence at h
  by_cases hc : (fieldGetter f && upperFirst n) = true
  · rw [if_pos hc] at h
    injection h with h2
    obtain ⟨hg, hu⟩ := Bool.and_eq_true_iff.mp hc
    exact ⟨hg, hu, h2.symm⟩
  · rw [if_neg hc] at h
    exact absurd h (by simp)

theorem processOccs_ok_no_upper {sn : String} {isTop : Bool}
    {vis : Visibility} {f : Field} :
    ∀ {ns : List String} {out : List StructField × List String},
      processOccs sn isTop vis f ns = .ok out →
      fieldGetter f = true → ∀ n ∈ ns, upperFirst n = false := by
  intro ns
  induction ns with
  | nil => intro out h hg n hn; simp at hn
  | cons n0 ns0 ih =>
      intro out h hg n hn
      simp only [processOccs] at h
      cases hr1 : processOccurrence sn isTop vis f n0 with
      | error e1 => rw [hr1] at h; simp at h
      | ok r1 =>
          rw [hr1] at h
          cases hr2 : processOccs sn isTop vis f ns0 with
          | error e2 => rw [hr2] at h; simp at h
          | ok r2 =>
              rcases List.mem_cons.mp hn with rfl | hns
              · exact processOccurrence_ok_no_upper hr1 hg
              · exact ih hr2 hg n hns

theorem processOccs_ok_getters {sn : String} {isTop : Bool}
    {vis : Visibility} {f : Field} :
    ∀ {ns : List String} {out : List StructField × List String},
      processOccs sn isTop vis f ns = .ok out →
      out.2 = if fieldGetter f && isTop then
          ns.map (occAccessor sn f) else [] := by
  intro ns
  induction ns with
  | nil =>
      intro out h
      simp only [processOccs] at h
      injection h with h2
      subst h2
      simp
  | cons n0 ns0 ih =>
      intro out h
      simp only [processOccs] at h
      cases hr1 : processOccurrence sn isTop vis f n0 with
      | error e1 => rw [hr1] at h; simp at h
      | ok r1 =>
          rw [hr1] at h
          cases hr2 : processOccs sn isTop vis f ns0 with
          | error e2 => rw [hr2] at h; simp at h
          | ok r2 =>
              rw [hr2] at h
              simp only [] at h
              injection h with h2
              subst h2
              have e1 := processOccurrence_ok_parts hr1
              have e2 := ih hr2
              cases hgi : (fieldGetter f && isTop) with
              | true =>
                  simp [hgi] at e1 e2 ⊢
                  simp [e1, e2]
              | false =>
                  simp [hgi] at e1 e2 ⊢
                  simp [e1, e2]

theorem processOccs_error_parts {sn : String} {isTop : Bool}
    {vis : Visibility} {f : Field} :
    ∀ {ns : List String} {e : String},
      processOccs sn isTop vis f ns = .error e →
      ∃ n ∈ ns, fieldGetter f = true ∧ upperFirst n = true ∧
        e = getterErrorText n sn := by
  intro ns
  induction ns with
  | nil => intro e h; simp [processOccs] at h
  | cons n0 ns0 ih =>
      intro e h
      simp only [processOccs] at h
      cases hr1 : processOccurrence sn isTop vis f n0 with
      | error e1 =>
          rw [hr1] at h
          simp at h
          obtain ⟨hg, hu, he⟩ := processOccurrence_error_parts hr1
          subst h
          exact ⟨n0, by simp, hg, hu, he⟩
      | ok r1 =>
          rw [hr1] at h
          cases hr2 : processOccs sn isTop vis f ns0 with
          | error e2 =>
              rw [hr2] at h
              simp at h
              subst h
              obtain ⟨n, hn, rest⟩ := ih hr2
              exact ⟨n, List.mem_cons_of_mem _ hn, rest⟩
          | ok r2 => rw [hr2] at h; simp at h

theorem processFields_ok_no_upper {sn : String} {isTop : Bool}
    {vis : Visibility} :
    ∀ {fields : List Field} {out : List StructField × List String},
      processFields sn isTop vis fields = .ok out →
      ∀ f ∈ fields, fieldGetter f = true → ∀ n ∈ effNames f, upperFirst n = false := by
  intro fields
  induction fields with
  | nil => intro out h f hf; simp at hf
  | cons f0 fs ih =>
      intro out h f hf hg n hn
      simp only [processFields] at h
      cases hr1 : processOccs sn isTop vis f0 (effNames f0) with
      | error e1 => rw [hr1] at h; simp at h
      | ok r1 =>
          rw [hr1] at h
          cases hr2 : processFields sn isTop vis fs with
          | error e2 => rw [hr2] at h; simp at h
          | ok r2 =>
              rcases List.mem_cons.mp hf with rfl | hfs
              · exact processOccs_ok_no_upper hr1 hg n hn
              · exact ih hr2 f hfs hg n hn

theorem processFields_ok_getters {sn : String} {isTop : Bool}
    {vis : Visibility} :
    ∀ {fields : List Field} {out : List StructField × List String},
      processFields sn isTop vis fields = .ok out →
      out.2 = if isTop then
          fields.flatMap (fun f =>
            if fieldGetter f then (effNames f).map (occAccessor sn f) else [])
        else [] := by
  intro fields
  induction fields with
  | nil =>
      intro out h
      simp only [processFields] at h
      injection h with h2
      subst h2
      simp
  | cons f0 fs ih =>
      intro out h
      simp only [processFields] at h
      cases hr1 : processOccs sn isTop vis f0 (effNames f0) with
      | error e1 => rw [hr1] at h; simp at h
      | ok r1 =>
          rw [hr1] at h
          cases hr2 : processFields sn isTop vis fs with
          | error e2 => rw [hr2] at h; simp at h
          | ok r2 =>
              rw [hr2] at h
              injection h with h2
              subst h2
              have e1 := processOccs_ok_getters hr1
              have e2 := ih hr2
              cases hT : isTop with
              | true =>
                  simp only [hT, Bool.and_true, if_true] at e1 e2 ⊢
                  cases hg0 : fieldGetter f0 with
                  | true => simp [hg0] at e1 ⊢; simp [e1, e2]
                  | false => simp [hg0] at e1 ⊢; simp [e1, e2]
              | false =>
                  simp only [hT, Bool.and_false] at e1 e2
                  simp at e1
                  simp [e1, e2]

theorem processFields_error_parts {sn : String} {isTop : Bool}
    {vis : Visibility} :
    ∀ {fields : List Field} {e : String},
      processFields sn isTop vis fields = .error e →
      ∃ f ∈ fields, fieldGetter f = true ∧ ∃ n ∈ effNames f,
        upperFirst n = true ∧ e = getterErrorText n sn := by
  intro fields
  induction fields with
  | nil => intro e h; simp [processFields] at h
  | cons f0 fs ih =>
      intro e h
      simp only [processFields] at h
      cases hr1 : processOccs sn isTop vis f0 (effNames f0) with
      | error e1 =>
          rw [hr1] at h
          simp at h
          subst h
          obtain ⟨n, hn, hg, hu, he⟩ := processOccs_error_parts hr1
          exact ⟨f0, by simp, hg, n, hn, hu, he⟩
      | ok r1 =>
          rw [hr1] at h
          cases hr2 : processFields sn isTop vis fs with
          | error e2 =>
              rw [hr2] at h
              simp at h
              subst h
              obtain ⟨f, hf, rest⟩ := ih hr2
              exact ⟨f, List.mem_cons_of_mem _ hf, rest⟩
          | ok r2 => rw [hr2] at h; simp at h

/-- Counterexample to C2 as stated.  First conjunct: two records identical
except for the source position of the offending field produce the *same*
error value, so the validation error cannot report the originating
line/column (the message interpolates only the field and record names, and
the caller wraps it with the file path alone).  Remaining conjuncts: on a
record that is not a top-level declaration (emitted as a type alias), a
getter directive on a lower-case field succeeds but emits *zero* accessor
methods, not exactly one. -/
theorem c2_counterexample :
    (processFields "Rec" true .exported
        [.mk ["Value"] (.ident "int") none "+gob:getter" ⟨3, 2⟩] =
      processFields "Rec" true .exported
        [.mk ["Value"] (.ident "int") none "+gob:getter" ⟨7, 9⟩]) ∧
    processFields "Rec" true .exported
        [.mk ["Value"] (.ident "int") none "+gob:getter" ⟨3, 2⟩] =
      .error (getterErrorText "Value" "Rec") ∧
    processFields "Inner" false .exported
        [.mk ["value"] (.ident "int") none "+gob:getter" ⟨1, 1⟩] =
      .ok ([⟨"Inner", "value", "int", false⟩], []) := by
  decide

/-- C2 (amended): for every processed record and every field occurrence
(declared or embedded) carrying the getter directive, an upper-case-leading
effective name makes generation fail with a validation error whose message
names exactly the offending field and the owning record (the file path is
added by the caller; no line/column is reported), while on success no
getter-flagged occurrence is upper-case-leading and the emitted accessors
are exactly one per getter-flagged occurrence for top-level records and
none for records emitted as aliases. -/
theorem c2_getter_validation_amended (sn : String) (isTop : Bool)
    (vis : Visibility) (fields : List Field) :
    (∀ out, processFields sn isTop vis fields = .ok out →
      ∀ f ∈ fields, fieldGetter f = true → ∀ n ∈ effNames f,
        upperFirst n = false) ∧
    (∀ e, processFields sn isTop vis fields = .error e →
      ∃ f ∈ fields, fieldGetter f = true ∧ ∃ n ∈ effNames f,
        upperFirst n = true ∧ e = getterErrorText n sn) ∧
    (∀ out, processFields sn isTop vis fields = .ok out →
      out.2 = if isTop then
          fields.flatMap (fun f =>
            if fieldGetter f then (effNames f).map (occAccessor sn f) else [])
        else []) :=
  ⟨fun _ h => processFields_ok_no_upper h,
   fun _ h => processFields_error_parts h,
   fun _ h => processFields_ok_getters h⟩

/-- Witness for `c2_getter_validation_amended`: the error conjunct at the
upper-case `Value` field of record `Rec`, and the accessor conjunct at the
lower-case `firstName` field of the top-level record `Person` (exactly one
accessor emitted). -/
theorem c2_getter_validation_amended_witness :
    (∃ f ∈ [Field.mk ["Value"] (.ident "int") none "+gob:getter" ⟨3, 2⟩],
      fieldGetter f = true ∧ ∃ n ∈ effNames f, upperFirst n = true ∧
        getterErrorText "Value" "Rec" = getterErrorText n "Rec") ∧
    ((⟨[⟨"Person", "firstName", "string", false⟩],
        ["func (v *Person) FirstName() string"]⟩ :
          List StructField × List String).2 =
      if true then
        [Field.mk ["firstName"] (.ident "string") none "+gob:getter" ⟨2, 2⟩].flatMap
          (fun f => if fieldGetter f then
            (effNames f).map (occAccessor "Person" f) else [])
      else []) :=
  ⟨(c2_getter_validation_amended "Rec" true .exported
      [.mk ["Value"] (.ident "int") none "+gob:getter" ⟨3, 2⟩]).2.1
      (getterErrorText "Value" "Rec") (by decide),
   (c2_getter_validation_amended "Person" true .exported
      [.mk ["firstName"] (.ident "string") none "+gob:getter" ⟨2, 2⟩]).2.2
      ⟨[⟨"Person", "firstName", "string", false⟩],
        ["func (v *Person) FirstName() string"]⟩ (by decide)⟩

/-! ### Field ordering (the `config.Sort` step of `generateCodeForFile`) -/

/-- Sort mode: `SortSeq` (declaration order) / `SortAbc` (alphabetical,
the default) of the constants file. -/
inductive SortMode where
  | seq
  | abc
deriving DecidableEq, Repr

/-- The comparison key of the `sort.SliceStable` call in
`generateCodeForFile`: `strings.ToLower(exportName(FieldName, Acronym))`. -/
def fieldKey (sf : StructField) : String :=
  toLowerAscii (exportName sf.fieldName sf.acronym)

/-- Lexicographic (character-wise, as Go's `<` on strings) comparison. -/
def charListLe : List Char → List Char → Bool
  | [], _ => true
  | _ :: _, [] => false
  | a :: as, b :: bs => if a = b then charListLe as bs else decide (a < b)

/-- Non-strict lexicographic string comparison. -/
def strLe (x y : String) : Bool := charListLe x.toList y.toList

theorem charListLe_total : ∀ as bs : List Char,
    charListLe as bs = true ∨ charListLe bs as = true
  | [], _ => .inl rfl
  | _ :: _, [] => .inr rfl
  | a :: as, b :: bs => by
      by_cases h : a = b
      · subst h
        simpa [charListLe] using charListLe_total as bs
      · have h2 : ¬b = a := fun e => h e.symm
        simp only [charListLe, if_neg h, if_neg h2, decide_eq_true_eq]
        rcases lt_or_gt_of_ne h with hlt | hgt
        · exact .inl hlt
        · exact .inr hgt

theorem charListLe_trans : ∀ {as bs cs : List Char},
    charListLe as bs = true → charListLe bs cs = true → charListLe as cs = true
  | [], _, _ => fun _ _ => rfl
  | _ :: _, [], _ => by intro h _; simp [charListLe] at h
  | _ :: _, _ :: _, [] => by intro _ h; simp [charListLe] at h
  | a :: as, b :: bs, c :: cs => by
      intro h1 h2
      by_cases hab : a = b
      · subst hab
        by_cases hac : a = c
        · subst hac
          simp only [charListLe, if_pos rfl] at h1 h2 ⊢
          exact charListLe_trans h1 h2
        · simp only [charListLe, if_pos rfl] at h1
          simp only [charListLe, if_neg hac] at h2 ⊢
          exact h2
      · by_cases hbc : b = c
        · subst hbc
          simp only [charListLe, if_neg hab] at h1 ⊢
          exact h1
        · simp only [charListLe, if_neg hab, decide_eq_true_eq] at h1
          simp only [charListLe, if_neg hbc, decide_eq_true_eq] at h2
          have hac : a < c := lt_trans h1 h2
          have hne : ¬a = c := ne_of_lt hac
          simp only [charListLe, if_neg hne, decide_eq_true_eq]
          exact hac

/-- Embedding of the ordering step of `generateCodeForFile`: in `abc` mode
the builder fields are stably sorted by the case-insensitive key — the
result of `sort.SliceStable` with the strict-less comparator is the unique
stable sort by that key, realized here by insertion sort on the non-strict
key comparison — and in `seq` mode declaration order is kept unchanged. -/
def sortFields (mode : SortMode) (l : List StructField) : List StructField :=
  match mode with
  | .abc =>
      List.insertionSort (fun a b => strLe (fieldKey a) (fieldKey b) = true) l
  | .seq => l

/-- C7: in alphabetical mode the builder steps are ordered by the effective
exported display names compared case-insensitively (first two conjuncts:
the result is sorted under the case-insensitive key and is a permutation of
the declaration order); the concrete conjuncts check the spec's
`zeta/alpha/Beta ↦ alpha, Beta, zeta` example, that a case-insensitive tie
(`foo` vs `Foo`) keeps declaration order (stable sort), that declaration
mode returns the input unchanged, and the acronym/capitalization display
rules (`dob ↦ DOB`, `zeta ↦ Zeta`). -/
theorem c7_field_ordering :
    (∀ l : List StructField,
      List.Sorted (fun a b => strLe (fieldKey a) (fieldKey b) = true)
        (sortFields .abc l)) ∧
    (∀ l : List StructField, (sortFields .abc l).Perm l) ∧
    sortFields .abc
        [⟨"S", "zeta", "string", false⟩, ⟨"S", "alpha", "string", false⟩,
         ⟨"S", "Beta", "string", false⟩] =
      [⟨"S", "alpha", "string", false⟩, ⟨"S", "Beta", "string", false⟩,
       ⟨"S", "zeta", "string", false⟩] ∧
    sortFields .abc [⟨"S", "foo", "int", false⟩, ⟨"S", "Foo", "string", false⟩] =
      [⟨"S", "foo", "int", false⟩, ⟨"S", "Foo", "string", false⟩] ∧
    (∀ (a b : StructField) (l : List StructField),
      strLe (fieldKey a) (fieldKey b) = true → List.Sublist [a, b] l →
      List.Sublist [a, b] (sortFields .abc l)) ∧
    (∀ l : List StructField, sortFields .seq l = l) ∧
    exportName "dob" true = "DOB" ∧
    exportName "zeta" false = "Zeta" := by
  haveI htot : IsTotal StructField
      (fun a b => strLe (fieldKey a) (fieldKey b) = true) :=
    ⟨fun a b => charListLe_total (fieldKey a).toList (fieldKey b).toList⟩
  haveI htr : IsTrans StructField
      (fun a b => strLe (fieldKey a) (fieldKey b) = true) :=
    ⟨fun _ _ _ hab hbc => charListLe_trans hab hbc⟩
  refine ⟨?_, ?_, by decide, by decide, ?_, fun _ => rfl, by decide, by decide⟩
  · intro l
    exact List.sorted_insertionSort _ l
  · intro l
    exact List.perm_insertionSort _ l
  · intro a b l hab h
    exact List.pair_sublist_insertionSort hab h

/-- Witness for `c7_field_ordering`: the stability conjunct at a concrete
case-insensitive tie — `foo` before `Foo` stays in that order. -/
theorem c7_field_ordering_witness :
    strLe (fieldKey ⟨"S", "foo", "int", false⟩)
        (fieldKey ⟨"S", "Foo", "string", false⟩) = true ∧
    List.Sublist
      [(⟨"S", "foo", "int", false⟩ : StructField), ⟨"S", "Foo", "string", false⟩]
      (sortFields .abc
        [⟨"S", "foo", "int", false⟩, ⟨"S", "Foo", "string", false⟩]) :=
  ⟨by decide,
   c7_field_ordering.2.2.2.2.1 ⟨"S", "foo", "int", false⟩
     ⟨"S", "Foo", "string", false⟩
     [⟨"S", "foo", "int", false⟩, ⟨"S", "Foo", "string", false⟩]
     (by decide) (List.Sublist.refl _)⟩

/-! ### Builder identifier assembly (constants file; assembly modelled) -/

/-- Constant `BuilderSuffix` of the constants file. -/
def BuilderSuffix : String := "Builder"

/-- Constant `BuilderPrefix` of the constants file (the `_Builder_` infix of
step type names). -/
def builderStepMid : String := "_Builder_"

/-- Constant `GobFinalizerName` of the constants file. -/
def GobFinalizerName : String := "GobFinalizer"

/-- Constant `BuildMethodName` of the constants file. -/
def BuildMethodName : String := "Build"

/-- Constant `NewPrefix` of the constants file. -/
def newExportedLead : String := "New"

/-- Constant `LowerNewPrefix` of the constants file. -/
def newPackageLead : String := "new"

/-- Modelled from the constants file, the spec's naming convention and the
repository's tests (`type Person_Builder_FirstName`,
`Contact_Builder_DOB`): a step type is named
`<RecordName>_Builder_<ExportedFieldName>`. -/
def builderStepTypeName (structName exportedField : String) : String :=
  structName ++ builderStepMid ++ exportedField

/-- Modelled from the constants file and the repository's tests
(`func (b Person_Builder_GobFinalizer) Build() *Person`): the terminal step
type appends `GobFinalizerName`, i.e. `<RecordName>_Builder_GobFinalizer`. -/
def builderFinalizerTypeName (structName : String) : String :=
  structName ++ builderStepMid ++ GobFinalizerName

/-- Modelled from the constants file and the repository's tests
(`NewPersonBuilder` for `Person`, `newInternalBuilder` for `internal`,
`newUnexportedStructBuilder` for `unexportedStruct`): the entry constructor
capitalizes the record name and prepends `New` (exported) or `new`
(package-level). -/
def entryConstructorName (structName : String) (exported : Bool) : String :=
  (if exported then newExportedLead else newPackageLead) ++
    capitalizeFirst structName ++ BuilderSuffix

/-- Counterexample to C3 as stated: the terminal step type of record
`Person` is `Person_Builder_GobFinalizer`, not `Person_Builder_Finalizer`
(the constants file sets `GobFinalizerName = "GobFinalizer"`, and the
repository's tests expect `func (b Person_Builder_GobFinalizer) Build()`);
and the package-level entry constructor for record `internal` is
`newInternalBuilder`, not `newinternalBuilder` — the record name is
first-letter-capitalized after the lower-case `new` lead. -/
theorem c3_counterexample :
    builderFinalizerTypeName "Person" ≠ "Person" ++ builderStepMid ++ "Finalizer" ∧
    builderFinalizerTypeName "Person" = "Person_Builder_GobFinalizer" ∧
    entryConstructorName "internal" false ≠
      newPackageLead ++ "internal" ++ BuilderSuffix ∧
    entryConstructorName "internal" false = "newInternalBuilder" := by
  decide

/-- C3 (amended): the entry constructor is `New` (exported visibility) or
`new` (package-level visibility) followed by the first-letter-capitalized
record name and `Builder`; each step type is
`<RecordName>_Builder_<ExportedFieldName>`; the terminal step type is
`<RecordName>_Builder_GobFinalizer`; and its completion method is named
`Build`.  The last conjunct checks the acronym display step name from the
repository's tests. -/
theorem c3_naming_convention_amended :
    (∀ r : String, entryConstructorName r true =
        "New" ++ capitalizeFirst r ++ "Builder") ∧
    (∀ r : String, entryConstructorName r false =
        "new" ++ capitalizeFirst r ++ "Builder") ∧
    (∀ r f : String, builderStepTypeName r f = r ++ "_Builder_" ++ f) ∧
    (∀ r : String, builderFinalizerTypeName r = r ++ "_Builder_" ++ "GobFinalizer") ∧
    BuildMethodName = "Build" ∧
    builderStepTypeName "Contact" (exportName "dob" true) = "Contact_Builder_DOB" :=
  ⟨fun _ => rfl, fun _ => rfl, fun _ _ => rfl, fun _ => rfl, rfl, by decide⟩

/-! ### Per-file output pipeline (the tail of `generateCodeForFile`,
src/main.go). -/

/-- A file's on-disk state: its content and its modification time (an
abstract timestamp stamped by every write). -/
structure FileState where
  content : String
  mtime : Nat
deriving DecidableEq, Repr

/-- Embedding of the output tail of `generateCodeForFile` (src/main.go):
when rendering succeeds, the raw result is written to the output file
(`os.WriteFile`), the text is then formatted/import-fixed in memory
(`imports.Process`), and on success the formatted text is written again;
an error during rendering (parse or validation error) returns before any
write, while an error from the formatter returns *after* the first write.
The filesystem is the single output file (`Option FileState`, `none` when
absent), `render` stands for the parse/discover/generate stage, `format`
for the goimports library call, and `now` is the timestamp a write stamps
on the file. -/
def writeAfterRender (prev : Option FileState) (render : Except String String)
    (format : String → Except String String) (now : Nat) :
    Except String String × Option FileState :=
  match render with
  | .error e => (.error e, prev)
  | .ok result =>
      let afterFirst : Option FileState := some ⟨result, now⟩
      match format result with
      | .error e =>
          (.error ("failed to format generated code/imports: " ++ e), afterFirst)
      | .ok processed => (.ok processed, some ⟨processed, now⟩)

/-- Counterexample to C5 as stated: when the formatting/import-fixing step
fails, the output file has already been overwritten with the raw
unformatted render — the previous output is *not* left untouched, because
`generateCodeForFile` writes the unformatted result before calling
`imports.Process`. -/
theorem c5_counterexample :
    writeAfterRender (some ⟨"old output", 100⟩) (.ok "raw render")
        (fun _ => .error "goimports failed") 200 =
      (.error ("failed to format generated code/imports: " ++ "goimports failed"),
        some ⟨"raw render", 200⟩) ∧
    (some (⟨"raw render", 200⟩ : FileState) ≠ some ⟨"old output", 100⟩) := by
  decide

/-- C5 (amended): an error in the rendering stage (parse or validation
error) writes nothing and leaves the previous output untouched, and on full
success the formatted output is written; but the raw render is written
*before* the formatting step, so a formatting/import-fixing failure leaves
the freshly written unformatted render in place of the previous output. -/
theorem c5_write_behavior_amended (prev : Option FileState)
    (render : Except String String) (format : String → Except String String)
    (now : Nat) :
    (∀ e, render = .error e →
      writeAfterRender prev render format now = (.error e, prev)) ∧
    (∀ result processed, render = .ok result → format result = .ok processed →
      writeAfterRender prev render format now =
        (.ok processed, some ⟨processed, now⟩)) ∧
    (∀ result e, render = .ok result → format result = .error e →
      writeAfterRender prev render format now =
        (.error ("failed to format generated code/imports: " ++ e),
          some ⟨result, now⟩)) := by
  refine ⟨?_, ?_, ?_⟩
  · intro e h
    subst h
    rfl
  · intro result processed h hf
    subst h
    simp [writeAfterRender, hf]
  · intro result e h hf
    subst h
    simp [writeAfterRender, hf]

/-- Witness for `c5_write_behavior_amended`: the three branches at concrete
inputs. -/
theorem c5_write_behavior_amended_witness :
    (writeAfterRender (some ⟨"old", 1⟩) (.error "parse error")
        (fun s => .ok s) 2 = (.error "parse error", some ⟨"old", 1⟩)) ∧
    (writeAfterRender (some ⟨"old", 1⟩) (.ok "raw")
        (fun _ => .ok "fmt") 2 = (.ok "fmt", some ⟨"fmt", 2⟩)) ∧
    (writeAfterRender (some ⟨"old", 1⟩) (.ok "raw")
        (fun _ => .error "bad") 2 =
      (.error ("failed to format generated code/imports: " ++ "bad"),
        some ⟨"raw", 2⟩)) :=
  ⟨(c5_write_behavior_amended (some ⟨"old", 1⟩) (.error "parse error")
      (fun s => .ok s) 2).1 "parse error" rfl,
   (c5_write_behavior_amended (some ⟨"old", 1⟩) (.ok "raw")
      (fun _ => .ok "fmt") 2).2.1 "raw" "fmt" rfl rfl,
   (c5_write_behavior_amended (some ⟨"old", 1⟩) (.ok "raw")
      (fun _ => .error "bad") 2).2.2 "raw" "bad" rfl rfl⟩

/-- C1, evaluated on the code as it stands: `generateCodeForFile`
unconditionally rewrites the output file — there is no signature check and
no skip path anywhere in its body.  Run a second time on unchanged input
and configuration (the render and the formatter reproduce the previous
content exactly), the file is still rewritten and its modification time
changes from 100 to 200, contradicting the claimed skip (and the
repository's own test `TestGenerateCodeSkipsWritingWhenUnchanged`, which
demands an unchanged mtime, as well as the spec's idempotence guarantee
and signature header — no `gobetter:signature` marker is ever emitted by
the code in the snapshot). -/
theorem c1_rewrite_always :
    (writeAfterRender (some ⟨"formatted output", 100⟩) (.ok "raw render")
        (fun _ => .ok "formatted output") 200).2 =
      some ⟨"formatted output", 200⟩ ∧
    ((200 : Nat) ≠ 100) := by
  decide

end Gobetter

section FormatterExamples
open Gobetter

example : Format (.selector (.ident "pkg") "Type") = "pkg.Type" := by decide
example : Format (.star (.array (.ident "string"))) = "*[]string" := by decide
example : Format (.mapT (.ident "string") (.ident "int")) = "map[string]int" := by decide
example : Format (.chanT .both (.ident "int")) = "chan int" := by decide
example : Format (.chanT .send (.ident "string")) = "chan<- string" := by decide
example : Format (.chanT .recv (.ident "bool")) = "<-chan bool" := by decide
example :
    Format (.funcT
      (.ofList [mkF ["ctx"] (.selector (.ident "context") "Context"),
                mkF ["values"] (.array (.ident "string"))])
      (.ofList [mkF [] (.ident "int"), mkF [] (.star (.ident "Error"))])) =
    "func(ctx context.Context, values []string) (int, *Error)" := by decide
example :
    Format (.funcT (.ofList [mkF [] (.ellipsis (.ident "string"))]) .fnil) =
    "func(...string)" := by decide
example : Format (.indexE (.ident "List") (.ident "string")) = "List[string]" := by decide
example :
    Format (.indexList (.ident "Map") (.ofList [.ident "string", .ident "int"])) =
    "Map[string, int]" := by decide
example : Format (.paren (.ident "T")) = "(T)" := by decide
example :
    Format (.structT (.ofList [mkF ["A"] (.ident "int"), mkF [] (.ident "Embedded")])) =
    "struct { A int; Embedded }" := by decide
example :
    Format (.interfaceT (.ofList
      [mkF ["Read"] (.funcT (.ofList [mkF ["p"] (.array (.ident "byte"))])
         (.ofList [mkF [] (.ident "int"), mkF [] (.ident "error")])),
       mkF ["Close"] (.funcT .fnil (.ofList [mkF [] (.ident "error")]))])) =
    "interface{ Read(p []byte) (int, error); Close() error }" := by decide
end FormatterExamples
